import Mathlib

/-!
# Verification of the knowledge-graph memory store

Shallow embedding of the enhanced memory-server variant of the repository
(`KnowledgeGraphManager` and its tool handlers).  Timestamps are naturals
(milliseconds), JavaScript numbers that can become `Infinity` through a
division by zero are modelled by `JVal`, and JavaScript's falsy test on
numbers (`x || d`, which replaces both `undefined` and `0` by `d`) is made
explicit wherever the source uses it.  The derived `stats` record and the
`version` string are not modelled: computing them draws on `Math.random`
(k-means centroid choice) and no claim refers to them.
-/

namespace KG

/-- A JavaScript number that is either a finite rational or `+Infinity`
(the value `1/0` evaluates to in JavaScript). `NaN` never arises in the
expressions we model with this type. -/
inductive JVal where
  | fin (q : ℚ)
  | inf
deriving DecidableEq, Repr

/-- Comparison `c < v` between a rational threshold and a JS value;
`Infinity` exceeds every threshold. -/
def JVal.gtB (v : JVal) (c : ℚ) : Bool :=
  match v with
  | .fin q => decide (c < q)
  | .inf => true

/-- A metadata value: only string values take part in search, the rest of
the JavaScript `any` payload is collapsed into one constructor. -/
inductive MVal where
  | str (s : String)
  | other
deriving DecidableEq, Repr

/-- `Entity` record of the source (all optional fields are `Option`). -/
structure Entity where
  name : String
  entityType : String
  observations : List String
  tags : Option (List String) := none
  metadata : Option (List (String × MVal)) := none
  lastAccessed : Option ℕ := none
  accessCount : Option ℕ := none
  createdAt : Option ℕ := none
  updatedAt : Option ℕ := none
  priority : Option ℚ := none
  contextCategory : Option String := none
  confidence : Option ℚ := none
  source : Option String := none
  expiresAt : Option ℕ := none
  validationStatus : Option String := none
deriving DecidableEq, Repr

/-- `Relation` record of the source; `from` is a Lean keyword, hence
`from_`/`to_`. -/
structure Relation where
  from_ : String
  to_ : String
  relationType : String
  strength : Option JVal := none
  metadata : Option (List (String × MVal)) := none
  createdAt : Option ℕ := none
  updatedAt : Option ℕ := none
deriving DecidableEq, Repr

/-- `MemoryContext` record of the source. -/
structure MemoryContext where
  id : String
  timestamp : ℕ
  entities : List String
  relations : List String
  summary : String
  priority : ℚ
  category : String
  source : String
  validUntil : Option ℕ := none
deriving DecidableEq, Repr

/-- `Pattern` record of the source. -/
structure Pattern where
  id : String
  entities : List Entity
  relations : List Relation
  frequency : ℕ
  lastSeen : ℕ
  confidence : JVal
  context : String
  category : String
  priority : JVal
  validUntil : Option ℕ := none
deriving DecidableEq, Repr

/-- `KnowledgeGraph` aggregate (the `stats`/`version` fields are omitted:
derived only, never read by a claim). -/
structure KnowledgeGraph where
  entities : List Entity
  relations : List Relation
  patterns : List Pattern := []
  contexts : List MemoryContext := []
  lastOptimized : Option ℕ := none
deriving DecidableEq, Repr

def CACHE_TTL : ℕ := 5 * 60 * 1000
def DAY_MS : ℕ := 24 * 60 * 60 * 1000
def MAX_CONTEXTS : ℕ := 1000
def THIRTY_DAYS_MS : ℕ := 30 * DAY_MS

/-- The empty graph produced by the `ENOENT` bootstrap path of `loadGraph`. -/
def emptyGraph : KnowledgeGraph :=
  { entities := [], relations := [], patterns := [], contexts := [], lastOptimized := none }

/-- JavaScript `x || d` on an optional number: both a missing field and the
(falsy) value `0` yield the default. -/
def jsOrNat (x : Option ℕ) (d : ℕ) : ℕ :=
  match x with
  | none => d
  | some t => if t = 0 then d else t

/-- JavaScript `xs || []` on an optional array (arrays are always truthy). -/
def listOr {α : Type} (x : Option (List α)) : List α := x.getD []

/-- Replace the first element satisfying `p` (the in-place mutation of the
entity returned by `Array.prototype.find`). -/
def replaceFirst {α : Type} (p : α → Bool) (f : α → α) : List α → List α
  | [] => []
  | x :: xs => if p x then f x :: xs else x :: replaceFirst p f xs

/-- `updateEntityMetadata`: stamp `lastAccessed`, bump `accessCount`, stamp
`updatedAt`. -/
def updateEntityMetadata (now : ℕ) (e : Entity) : Entity :=
  { e with lastAccessed := some now
           accessCount := some (e.accessCount.getD 0 + 1)
           updatedAt := some now }

/-- `calculateRelationStrength`.  The source re-reads `Date.now()` inside
this helper; the embedding passes the operation's single instant `now`.
`(x || 0)` is `Option.getD 0` since the default coincides with the falsy
value.  Subtractions are over `ℤ` (JavaScript subtraction can go negative
for future-dated stamps), and `1/0` is JavaScript `Infinity`. -/
def calculateRelationStrength (now : ℕ) (r : Relation) (g : KnowledgeGraph) : JVal :=
  match g.entities.find? (fun e => e.name == r.from_),
        g.entities.find? (fun e => e.name == r.to_) with
  | some fromEntity, some toEntity =>
    let accessFactor : ℚ :=
      ((fromEntity.accessCount.getD 0 : ℚ) + (toEntity.accessCount.getD 0 : ℚ)) / 2
    let recencyFactor : ℚ :=
      ((min ((now : ℤ) - (r.createdAt.getD 0 : ℤ))
            ((now : ℤ) - (r.updatedAt.getD 0 : ℤ)) : ℤ) : ℚ) / (DAY_MS : ℚ)
    let sharedObservations : ℕ :=
      (fromEntity.observations.filter (fun obs => toEntity.observations.contains obs)).length
    if recencyFactor = 0 then JVal.inf
    else JVal.fin (accessFactor * 0.4 + (1 / recencyFactor) * 0.3 + (sharedObservations : ℚ) * 0.3)
  | _, _ => JVal.fin 0

/-- The relations connecting two entities in either direction (the inner
filter of `detectPatterns`). -/
def connRelations (g : KnowledgeGraph) (entity1 entity2 : Entity) : List Relation :=
  g.relations.filter (fun r =>
    (r.from_ == entity1.name && r.to_ == entity2.name) ||
    (r.from_ == entity2.name && r.to_ == entity1.name))

/-- Shared observations of a pair (intersection by value, with entity1-side
multiplicity, exactly as the source's `filter`/`includes`). -/
def sharedObservationsOf (entity1 entity2 : Entity) : List String :=
  entity1.observations.filter (fun obs => entity2.observations.contains obs)

/-- Shared tags of a pair (same `filter`/`includes` shape over `tags || []`). -/
def sharedTagsOf (entity1 entity2 : Entity) : List String :=
  (listOr entity1.tags).filter (fun tag => (listOr entity2.tags).contains tag)

/-- The `confidence` of an emitted pattern:
`frequency / max(|obs1|, |obs2|)`, JavaScript `Infinity` when both
observation lists are empty (possible when only tags are shared). -/
def patternConfidence (entity1 entity2 : Entity) : JVal :=
  let freq := (sharedObservationsOf entity1 entity2).length + (sharedTagsOf entity1 entity2).length
  let denom := max entity1.observations.length entity2.observations.length
  if denom = 0 then JVal.inf else JVal.fin ((freq : ℚ) / (denom : ℚ))

/-- The pattern record pushed by `detectPatterns` for one ordered pair. -/
def mkPattern (now : ℕ) (g : KnowledgeGraph) (entity1 entity2 : Entity) : Pattern :=
  { id := "pattern_" ++ entity1.name ++ "_" ++ entity2.name ++ "_" ++ toString now
    entities := [entity1, entity2]
    relations := connRelations g entity1 entity2
    frequency := (sharedObservationsOf entity1 entity2).length + (sharedTagsOf entity1 entity2).length
    lastSeen := now
    confidence := patternConfidence entity1 entity2
    context := "Pattern between " ++ entity1.name ++ " and " ++ entity2.name
    category := if (patternConfidence entity1 entity2).gtB 0.7 then "strong"
                else if (patternConfidence entity1 entity2).gtB 0.4 then "moderate" else "weak"
    priority := patternConfidence entity1 entity2
    validUntil := some (now + THIRTY_DAYS_MS) }

/-- The inner body of `detectPatterns` for one ordered pair: skip equal
names, require a connecting relation and a shared observation or tag, then
emit the pattern record. -/
def patternFor (now : ℕ) (g : KnowledgeGraph) (entity1 entity2 : Entity) : Option Pattern :=
  if entity1.name = entity2.name then none
  else if (connRelations g entity1 entity2).length > 0 then
    if (sharedObservationsOf entity1 entity2).length > 0 ∨
        (sharedTagsOf entity1 entity2).length > 0 then
      some (mkPattern now g entity1 entity2)
    else none
  else none

/-- `detectPatterns`: the nested `forEach` over all ordered entity pairs,
with its early `return` on equal names, rendered as `flatMap`/`filterMap`. -/
def detectPatterns (now : ℕ) (g : KnowledgeGraph) : List Pattern :=
  g.entities.flatMap (fun entity1 =>
    g.entities.filterMap (patternFor now g entity1))

/-- Whether an ordered pair of entities makes `detectPatterns` emit a
pattern: distinct names, some connecting relation, some shared observation
or tag. -/
def qualB (g : KnowledgeGraph) (entity1 entity2 : Entity) : Bool :=
  (!(entity1.name == entity2.name)) &&
  (decide (0 < (connRelations g entity1 entity2).length)) &&
  (decide (0 < (sharedObservationsOf entity1 entity2).length) ||
   decide (0 < (sharedTagsOf entity1 entity2).length))

/-- All ordered pairs of graph entities that qualify for a pattern. -/
def qualifyingPairs (g : KnowledgeGraph) : List (Entity × Entity) :=
  (g.entities.flatMap (fun entity1 =>
    g.entities.map (fun entity2 => (entity1, entity2)))).filter
    (fun q => qualB g q.1 q.2)

/-- The timestamp/default stamping `createEntities` applies to a candidate. -/
def stampNewEntity (now : ℕ) (e : Entity) : Entity :=
  { e with createdAt := some now, updatedAt := some now, accessCount := some 0,
           lastAccessed := some now, tags := some (listOr e.tags),
           metadata := some (e.metadata.getD []) }

/-- `createEntities`: stamp candidates, keep those whose name is not already
present in the graph (the filter does not compare candidates against each
other), append, and return the appended subset. -/
def createEntities (now : ℕ) (entities : List Entity) (g : KnowledgeGraph) :
    KnowledgeGraph × List Entity :=
  let newEntities := (entities.map (stampNewEntity now)).filter
    (fun e => !(g.entities.any (fun existingEntity => existingEntity.name == e.name)))
  ({ g with entities := g.entities ++ newEntities }, newEntities)

/-- The timestamp/default stamping `createRelations` applies to a candidate
(initial `strength = 1`). -/
def stampNewRelation (now : ℕ) (r : Relation) : Relation :=
  { r with createdAt := some now, updatedAt := some now, strength := some (JVal.fin 1),
           metadata := some (r.metadata.getD []) }

/-- `createRelations`: stamp and dedup against existing `(from,to,type)`
triples, append, then recompute `strength` for every relation of the graph.
The returned list holds the pre-recomputation records (`strength = 1`),
exactly as the source returns the objects it pushed. -/
def createRelations (now : ℕ) (relations : List Relation) (g : KnowledgeGraph) :
    KnowledgeGraph × List Relation :=
  let newRelations := (relations.map (stampNewRelation now)).filter
    (fun r => !(g.relations.any (fun ex =>
      ex.from_ == r.from_ && ex.to_ == r.to_ && ex.relationType == r.relationType)))
  let pushed := { g with relations := g.relations ++ newRelations }
  ({ pushed with relations := pushed.relations.map (fun r =>
      { r with strength := some (calculateRelationStrength now r pushed) }) },
   newRelations)

/-- `deleteEntities`: drop named entities and every relation naming one on
either side. -/
def deleteEntities (entityNames : List String) (g : KnowledgeGraph) : KnowledgeGraph :=
  { g with
    entities := g.entities.filter (fun e => !(entityNames.contains e.name))
    relations := g.relations.filter (fun r =>
      !(entityNames.contains r.from_) && !(entityNames.contains r.to_)) }

/-- One item of a `deleteObservations` batch. -/
structure ObsDeletion where
  entityName : String
  observations : List String
deriving DecidableEq, Repr

/-- `deleteObservations`: for each item, `find` the entity (first match,
mutated in place — hence `replaceFirst`) and strip the listed observation
strings; a missing entity is skipped. -/
def deleteObservations (deletions : List ObsDeletion) (g : KnowledgeGraph) : KnowledgeGraph :=
  deletions.foldl (fun acc d =>
    let strip : Entity → Entity := fun e =>
      { e with observations := e.observations.filter (fun o => !(d.observations.contains o)) }
    { acc with entities := replaceFirst (fun e => e.name == d.entityName) strip acc.entities }) g

/-- The `(from, to, relationType)` key a `deleteRelations` item carries. -/
structure RelKey where
  from_ : String
  to_ : String
  relationType : String
deriving DecidableEq, Repr

/-- `deleteRelations`: exact-triple removal. -/
def deleteRelations (relations : List RelKey) (g : KnowledgeGraph) : KnowledgeGraph :=
  { g with relations := g.relations.filter (fun r => !(relations.any (fun d =>
      r.from_ == d.from_ && r.to_ == d.to_ && r.relationType == d.relationType))) }

/-- One item of an `addObservations` batch. -/
structure ObsItem where
  entityName : String
  contents : List String
deriving DecidableEq, Repr

/-- One result entry of `addObservations`. -/
structure ObsRes where
  entityName : String
  addedObservations : List String
deriving DecidableEq, Repr

/-- The in-place mutation one `addObservations` item applies to the loaded
graph: push the new observation strings onto the first entity of that name
and bump its access metadata. -/
def addObsStep (now : ℕ) (entityName : String) (newObservations : List String)
    (g : KnowledgeGraph) : KnowledgeGraph :=
  let push : Entity → Entity := fun e =>
    updateEntityMetadata now { e with observations := e.observations ++ newObservations }
  { g with entities := replaceFirst (fun e => e.name == entityName) push g.entities }

/-- The `observations.map(...)` loop of `addObservations`: items are
processed left to right, each appending the not-yet-present contents to the
first entity of that name and bumping its access metadata; the first item
naming a missing entity throws, and the graph mutated so far is kept (the
loaded object is mutated in place). -/
def addObsLoop (now : ℕ) : List ObsItem → KnowledgeGraph →
    Except String (List ObsRes) × KnowledgeGraph
  | [], g => (.ok [], g)
  | o :: rest, g =>
    match g.entities.find? (fun e => e.name == o.entityName) with
    | none => (.error ("Entity with name " ++ o.entityName ++ " not found"), g)
    | some entity =>
      let newObservations := o.contents.filter (fun content =>
        !(entity.observations.contains content))
      match addObsLoop now rest (addObsStep now o.entityName newObservations g) with
      | (.ok rs, g'') =>
        (.ok ({ entityName := o.entityName, addedObservations := newObservations } :: rs), g'')
      | (.error m, g'') => (.error m, g'')

/-- `addObservations`: run the batch loop; on success regenerate the pattern
list and hand the graph to `saveGraph` (the error path performs no save and
no pattern regeneration). -/
def addObservations (now : ℕ) (observations : List ObsItem) (g : KnowledgeGraph) :
    Except String (List ObsRes) × KnowledgeGraph :=
  match addObsLoop now observations g with
  | (.ok results, g') => (.ok results, { g' with patterns := detectPatterns now g' })
  | (.error m, g') => (.error m, g')

/-- The comparator `(a, b) => b.priority - a.priority` of `optimizeMemory`'s
sort: `a` may stay before `b` when `b.priority ≤ a.priority`. -/
def ctxGE (a b : MemoryContext) : Prop := b.priority ≤ a.priority

instance : DecidableRel ctxGE := fun a b => inferInstanceAs (Decidable (b.priority ≤ a.priority))

instance : IsTotal MemoryContext ctxGE := ⟨fun a b => le_total b.priority a.priority⟩

instance : IsTrans MemoryContext ctxGE := ⟨fun _ _ _ h1 h2 => le_trans h2 h1⟩

/-- The context filter of `optimizeMemory` (JavaScript's
`!ctx.validUntil || ctx.validUntil > now`, so a `validUntil` of `0` is
falsy and the context is kept). -/
def liveContexts (now : ℕ) (g : KnowledgeGraph) : List MemoryContext :=
  g.contexts.filter (fun ctx =>
    match ctx.validUntil with
    | none => true
    | some v => if v = 0 then true else decide (now < v))

/-- The context list `optimizeMemory` retains: live contexts sorted by
priority descending (V8's stable sort; a stable sort's output is unique,
modelled by insertion sort) and truncated to `MAX_CONTEXTS`. -/
def keptContexts (now : ℕ) (g : KnowledgeGraph) : List MemoryContext :=
  let sorted := (liveContexts now g).insertionSort ctxGE
  if MAX_CONTEXTS < sorted.length then sorted.take MAX_CONTEXTS else sorted

/-- The per-entity priority update of `optimizeMemory`: entities referenced
by a retained context get the mean priority of those contexts, others are
untouched. -/
def optimizeEntityPriority (kept : List MemoryContext) (entity : Entity) : Entity :=
  let relatedContexts := kept.filter (fun ctx => ctx.entities.contains entity.name)
  if relatedContexts.length = 0 then entity
  else
    let mean : ℚ :=
      (relatedContexts.foldl (fun sum ctx => sum + ctx.priority) 0) /
        (relatedContexts.length : ℚ)
    { entity with priority := some mean }

/-- `optimizeMemory`: drop expired contexts, sort by priority descending,
truncate to `MAX_CONTEXTS`, and propagate priorities back onto entities
(against the final retained list, as the source mutates `graph.contexts`
in place before the entity pass). -/
def optimizeMemory (now : ℕ) (g : KnowledgeGraph) : KnowledgeGraph :=
  { g with contexts := keptContexts now g
           entities := g.entities.map (optimizeEntityPriority (keptContexts now g))
           lastOptimized := some now }

/-- Case-insensitive substring test
(`hay.toLowerCase().includes(needle.toLowerCase())`), lowering per
character. -/
def isSubstringCI (hay needle : String) : Bool :=
  ((hay.toList.map Char.toLower).tails).any
    (fun t => (needle.toList.map Char.toLower).isPrefixOf t)

/-- The entity filter of `searchNodes`. -/
def matchesQuery (query : String) (e : Entity) : Bool :=
  isSubstringCI e.name query || isSubstringCI e.entityType query ||
  e.observations.any (fun o => isSubstringCI o query) ||
  (listOr e.tags).any (fun t => isSubstringCI t query) ||
  (e.metadata.getD []).any (fun kv =>
    match kv.2 with
    | .str v => isSubstringCI v query
    | .other => false)

/-- `searchNodes`: returns the filtered result graph and the full graph
whose matched entities were bumped in place (the latter is what gets
saved).  Relations need a matched endpoint and `(strength || 0) > 0.5`;
the result graph's literal carries no `lastOptimized` key. -/
def searchNodes (now : ℕ) (query : String) (g : KnowledgeGraph) :
    KnowledgeGraph × KnowledgeGraph :=
  let filteredEntities := g.entities.filter (matchesQuery query)
  let filteredEntityNames := filteredEntities.map (fun e => e.name)
  let filteredRelations := g.relations.filter (fun r =>
    (filteredEntityNames.contains r.from_ || filteredEntityNames.contains r.to_) &&
    ((r.strength.getD (JVal.fin 0)).gtB 0.5))
  let updatedFull := { g with entities := g.entities.map (fun e =>
    if matchesQuery query e then updateEntityMetadata now e else e) }
  let result : KnowledgeGraph :=
    { entities := filteredEntities.map (updateEntityMetadata now)
      relations := filteredRelations
      patterns := g.patterns.filter (fun p =>
        p.entities.any (fun e => filteredEntityNames.contains e.name))
      contexts := g.contexts.filter (fun ctx =>
        ctx.entities.any (fun n => filteredEntityNames.contains n))
      lastOptimized := none }
  (result, updatedFull)

/-- The `open_nodes` tool handler: exact-name lookup; no metadata update and
no save happen on this path. -/
def openNodes (names : List String) (g : KnowledgeGraph) : List Entity × List Relation :=
  let filteredEntities := g.entities.filter (fun e => names.contains e.name)
  let filteredEntityNames := filteredEntities.map (fun e => e.name)
  (filteredEntities,
   g.relations.filter (fun r =>
     filteredEntityNames.contains r.from_ && filteredEntityNames.contains r.to_))

/-- The `create_context` handler's graph effect: push the new context. -/
def createContext (ctx : MemoryContext) (g : KnowledgeGraph) : KnowledgeGraph :=
  { g with contexts := g.contexts ++ [ctx] }

/-- One line of the persistence file.  Each line is an independently
parseable JSON object whose `type` discriminator is the constructor here;
`JSON.stringify`/`JSON.parse` on these records is faithfully inverted, so
the embedding stores the typed record itself.  (The context line also
carries an `updatedAt` JSON key that the typed `MemoryContext` reads of the
source never observe.) -/
inductive FileRecord where
  | entity (e : Entity)
  | relation (r : Relation)
  | context (c : MemoryContext)
deriving DecidableEq, Repr

/-- The lines `saveGraph` writes: every entity, relation and context, each
with `updatedAt` stamped to the write instant. -/
def saveLines (now : ℕ) (g : KnowledgeGraph) : List FileRecord :=
  g.entities.map (fun e => FileRecord.entity { e with updatedAt := some now }) ++
  g.relations.map (fun r => FileRecord.relation { r with updatedAt := some now }) ++
  g.contexts.map (fun c => FileRecord.context c)

/-- One step of the `lines.reduce` of `loadGraph`: push the record into the
collection selected by its `type` discriminator. -/
def loadStep (acc : KnowledgeGraph) (item : FileRecord) : KnowledgeGraph :=
  match item with
  | .entity e => { acc with entities := acc.entities ++ [e] }
  | .relation r => { acc with relations := acc.relations ++ [r] }
  | .context c => { acc with contexts := acc.contexts ++ [c] }

/-- The `lines.reduce` of `loadGraph`: push records into the three
collections of the initial graph, in file order; `patterns` starts empty. -/
def loadRecords (lines : List FileRecord) : KnowledgeGraph :=
  lines.foldl loadStep emptyGraph

/-- The entity payload of a file record, if any. -/
def recEntity : FileRecord → Option Entity
  | .entity e => some e
  | _ => none

/-- The relation payload of a file record, if any. -/
def recRelation : FileRecord → Option Relation
  | .relation r => some r
  | _ => none

/-- The context payload of a file record, if any. -/
def recContext : FileRecord → Option MemoryContext
  | .context c => some c
  | _ => none

/-- The manager's persistent state: the log file (`none` when the file does
not exist) and the read cache with its fill timestamp. -/
structure Store where
  file : Option (List FileRecord) := none
  cache : Option (KnowledgeGraph × ℕ) := none
deriving DecidableEq, Repr

/-- `saveGraph`'s net store effect: replace the file with the precomputed
lines and clear the cache.  (When optimisation is due, the source first
lets `optimizeMemory` write the file, then immediately overwrites it with
these precomputed lines, so the net file content is unchanged by the
detour.) -/
def saveGraphOp (now : ℕ) (g : KnowledgeGraph) : Store :=
  { file := some (saveLines now g), cache := none }

/-- The cache-miss branch of `loadGraph`: read the file (a missing file is
the empty-graph bootstrap, which is not cached) and fill the cache.  The
third component is the timestamp under which the returned graph sits in
the cache (`none` on the bootstrap path), used to mirror in-place mutation
of the cached object. -/
def loadFromFile (now : ℕ) (s : Store) : KnowledgeGraph × Store × Option ℕ :=
  match s.file with
  | some lines =>
    let g := loadRecords lines
    (g, { s with cache := some (g, now) }, some now)
  | none => (emptyGraph, s, none)

/-- `loadGraph`: serve from the cache while it is younger than the TTL,
otherwise re-read the file. -/
def loadGraphOp (now : ℕ) (s : Store) : KnowledgeGraph × Store × Option ℕ :=
  match s.cache with
  | some (g, ts) => if now - ts < CACHE_TTL then (g, s, some ts) else loadFromFile now s
  | none => loadFromFile now s

/-- Store-level `deleteEntities` (load, mutate, save). -/
def storeDeleteEntities (now : ℕ) (names : List String) (s : Store) : Store :=
  let (g, _, _) := loadGraphOp now s
  saveGraphOp now (deleteEntities names g)

/-- Store-level `deleteObservations` (load, mutate, save). -/
def storeDeleteObservations (now : ℕ) (dels : List ObsDeletion) (s : Store) : Store :=
  let (g, _, _) := loadGraphOp now s
  saveGraphOp now (deleteObservations dels g)

/-- Store-level `deleteRelations` (load, mutate, save). -/
def storeDeleteRelations (now : ℕ) (rels : List RelKey) (s : Store) : Store :=
  let (g, _, _) := loadGraphOp now s
  saveGraphOp now (deleteRelations rels g)

/-- Store-level `searchNodes`: the bumped full graph is saved, the filtered
graph is returned. -/
def storeSearchNodes (now : ℕ) (query : String) (s : Store) : KnowledgeGraph × Store :=
  let (g, _, _) := loadGraphOp now s
  let (result, updatedFull) := searchNodes now query g
  (result, saveGraphOp now updatedFull)

/-- Store-level `open_nodes`: a plain `readGraph` plus filtering; the store
is left exactly as the load left it. -/
def storeOpenNodes (now : ℕ) (names : List String) (s : Store) :
    (List Entity × List Relation) × Store :=
  let (g, s1, _) := loadGraphOp now s
  (openNodes names g, s1)

/-- Store-level `addObservations`.  On success the mutated graph is saved.
On error no save happens; but because the loop mutated the loaded object in
place, a cached graph keeps the partial mutations (mirrored here by
rewriting the cache slot the loaded graph came from). -/
def storeAddObservations (now : ℕ) (items : List ObsItem) (s : Store) :
    Except String (List ObsRes) × Store :=
  let (g, s1, aliasTs) := loadGraphOp now s
  match addObservations now items g with
  | (.ok rs, g') => (.ok rs, saveGraphOp now g')
  | (.error m, g') =>
    (.error m,
     match aliasTs with
     | some ts => { s1 with cache := some (g', ts) }
     | none => s1)

/-! ## Spec-side strength formula (for the refinement claim C4) -/

/-- Spec wording: `accessFactor` is the mean access count of the two
endpoint entities. -/
def accessFactorSpec (e1 e2 : Entity) : ℚ :=
  ((e1.accessCount.getD 0 : ℚ) + (e2.accessCount.getD 0 : ℚ)) / 2

/-- Spec wording: `recencyFactor` is the minimum, in days, of the time since
the relation's creation and the time since its last update. -/
def recencyFactorSpec (now : ℕ) (r : Relation) : ℚ :=
  ((min ((now : ℤ) - (r.createdAt.getD 0 : ℤ))
        ((now : ℤ) - (r.updatedAt.getD 0 : ℤ)) : ℤ) : ℚ) / (DAY_MS : ℚ)

/-- Spec wording: the number of observation strings common to both
endpoints (counted on the `from` side). -/
def sharedObservationsSpec (e1 e2 : Entity) : ℕ :=
  e1.observations.countP (fun obs => decide (obs ∈ e2.observations))

/-- The claim's strength formula,
`0.4*accessFactor + 0.3*(1/recencyFactor) + 0.3*sharedObservations`,
with strength `0` when either endpoint entity is missing, and JavaScript
`Infinity` when `recencyFactor` is zero. -/
def strengthSpec (now : ℕ) (entities : List Entity) (r : Relation) : JVal :=
  match entities.find? (fun e => e.name == r.from_),
        entities.find? (fun e => e.name == r.to_) with
  | some e1, some e2 =>
    if recencyFactorSpec now r = 0 then JVal.inf
    else JVal.fin (0.4 * accessFactorSpec e1 e2 +
                   0.3 * (1 / recencyFactorSpec now r) +
                   0.3 * (sharedObservationsSpec e1 e2 : ℚ))
  | _, _ => JVal.fin 0

/-- Spec wording for C6: the mean priority of the retained contexts that
reference the entity. -/
def meanPrioritySpec (kept : List MemoryContext) (e : Entity) : Entity :=
  let related := kept.filter (fun ctx => ctx.entities.contains e.name)
  let mean : ℚ := (related.map MemoryContext.priority).sum / (related.length : ℚ)
  { e with priority := some mean }

/-! ## Quality metrics (`calculateQualityMetrics`, `checkConsistency`) -/

/-- JavaScript truthiness of an optional string field (`undefined` and the
empty string are falsy). -/
def jsStrTruthy : Option String → Bool
  | none => false
  | some s => !(s == "")

/-- Completeness: the fraction of the four optional fields
`tags`, `metadata`, `contextCategory`, `source` that are (JS-truthily)
populated; a present but empty array or object is truthy. -/
def completenessOf (e : Entity) : ℚ :=
  (((if e.tags.isSome then 1 else 0) + (if e.metadata.isSome then 1 else 0) +
    (if jsStrTruthy e.contextCategory then 1 else 0) +
    (if jsStrTruthy e.source then 1 else 0) : ℕ) : ℚ) / 4

/-- Case-sensitive substring test (`hay.includes(needle)`). -/
def isSubstrCS (hay needle : String) : Bool :=
  (hay.toList.tails).any (fun t => needle.toList.isPrefixOf t)

/-- The fixed keyword-antonym list of `checkConsistency`. -/
def contradictionPairs : List (String × String) :=
  [("always", "never"), ("true", "false"), ("high", "low"), ("increase", "decrease")]

/-- The nested contradiction count of `checkConsistency`: one increment per
later observation per antonym pair matching in either direction. -/
def countContradictions : List String → ℕ
  | [] => 0
  | obs :: rest =>
    (rest.map (fun otherObs => contradictionPairs.countP (fun p =>
      (isSubstrCS obs p.1 && isSubstrCS otherObs p.2) ||
      (isSubstrCS obs p.2 && isSubstrCS otherObs p.1)))).sum +
    countContradictions rest

/-- `checkConsistency`: `max(0, 1 - contradictions / observations.length)`.
On an empty observation list JavaScript computes `0/0 = NaN`, modelled as
`none`. -/
def checkConsistency (observations : List String) : Option ℚ :=
  if observations.length = 0 then none
  else some (max 0 (1 - (countContradictions observations : ℚ) / (observations.length : ℚ)))

/-- Recency: `exp(-(now - (updatedAt || now)) / (30 days))`. -/
noncomputable def recencyOf (now : ℕ) (e : Entity) : ℝ :=
  Real.exp (-(((now : ℝ) - (jsOrNat e.updatedAt now : ℝ))) / (30 * (DAY_MS : ℝ)))

/-- Relevance: `(accessCount || 0) / 100` — not clamped. -/
def relevanceOf (e : Entity) : ℚ := (e.accessCount.getD 0 : ℚ) / 100

/-- Reliability: 1 if verified, 0.7 if inferred, 0.4 otherwise. -/
def reliabilityOf (e : Entity) : ℚ :=
  if e.validationStatus = some "verified" then 1
  else if e.validationStatus = some "inferred" then 0.7
  else 0.4

/-- The record returned by `calculateQualityMetrics`. -/
structure QualityMetrics where
  completeness : ℚ
  consistency : Option ℚ
  recency : ℝ
  relevance : ℚ
  reliability : ℚ

/-- `calculateQualityMetrics`. -/
noncomputable def calculateQualityMetrics (now : ℕ) (e : Entity) : QualityMetrics :=
  { completeness := completenessOf e
    consistency := checkConsistency e.observations
    recency := recencyOf now e
    relevance := relevanceOf e
    reliability := reliabilityOf e }

/-- The equal-weight aggregate formed in `calculateStats`
(`0.2` on each sub-metric); `none` propagates the `NaN` consistency of an
observation-free entity. -/
noncomputable def qualityScore (now : ℕ) (e : Entity) : Option ℝ :=
  (checkConsistency e.observations).map (fun c : ℚ =>
    (completenessOf e : ℝ) * 0.2 + (c : ℝ) * 0.2 + recencyOf now e * 0.2 +
    (relevanceOf e : ℝ) * 0.2 + (reliabilityOf e : ℝ) * 0.2)

/-! ## Reachability by the public operations -/

/-- Graphs reachable from the empty graph by the public graph-transforming
operations, where every `createEntities` batch carries pairwise-distinct
names (the proviso the C2 counterexample forces). -/
inductive ReachableU : KnowledgeGraph → Prop where
  | empty : ReachableU emptyGraph
  | createEntities (now : ℕ) (es : List Entity) {g : KnowledgeGraph}
      (hnd : (es.map Entity.name).Nodup) (h : ReachableU g) :
      ReachableU (KG.createEntities now es g).1
  | createRelations (now : ℕ) (rs : List Relation) {g : KnowledgeGraph} (h : ReachableU g) :
      ReachableU (KG.createRelations now rs g).1
  | addObservations (now : ℕ) (items : List ObsItem) {g : KnowledgeGraph} (h : ReachableU g) :
      ReachableU (KG.addObservations now items g).2
  | deleteEntities (names : List String) {g : KnowledgeGraph} (h : ReachableU g) :
      ReachableU (KG.deleteEntities names g)
  | deleteObservations (dels : List ObsDeletion) {g : KnowledgeGraph} (h : ReachableU g) :
      ReachableU (KG.deleteObservations dels g)
  | deleteRelations (rels : List RelKey) {g : KnowledgeGraph} (h : ReachableU g) :
      ReachableU (KG.deleteRelations rels g)
  | optimizeMemory (now : ℕ) {g : KnowledgeGraph} (h : ReachableU g) :
      ReachableU (KG.optimizeMemory now g)
  | searchNodes (now : ℕ) (q : String) {g : KnowledgeGraph} (h : ReachableU g) :
      ReachableU (KG.searchNodes now q g).2
  | createContext (ctx : MemoryContext) {g : KnowledgeGraph} (h : ReachableU g) :
      ReachableU (KG.createContext ctx g)
  | reload (now : ℕ) {g : KnowledgeGraph} (h : ReachableU g) :
      ReachableU (loadRecords (saveLines now g))

/-! ## Concrete fixtures for witnesses and counterexamples -/

def exNoObsA : Entity := { name := "A", entityType := "t", observations := [] }

def c3Graph : KnowledgeGraph := { entities := [exNoObsA], relations := [] }

def c3Store : Store := { file := none, cache := some (c3Graph, 0) }

def exA5 : Entity :=
  { name := "A", entityType := "t", observations := ["x"], accessCount := some 5 }

def c9Graph : KnowledgeGraph := { entities := [exA5], relations := [] }

def c9Store : Store := { file := none, cache := some (c9Graph, 50) }

def exHot : Entity :=
  { name := "H", entityType := "t", observations := ["o"], accessCount := some 200 }

def exCtx0 : MemoryContext :=
  { id := "c", timestamp := 0, entities := [], relations := [], summary := "",
    priority := 1/2, category := "k", source := "s", validUntil := some 0 }

def c6Graph : KnowledgeGraph := { entities := [], relations := [], contexts := [exCtx0] }

def exW : Entity :=
  { name := "w", entityType := "t", observations := ["o"], accessCount := some 5,
    updatedAt := some 3, validationStatus := some "verified" }

def exA : Entity := { name := "A", entityType := "person", observations := ["x"] }

def exB : Entity := { name := "B", entityType := "person", observations := ["x"] }

def exRelAB : Relation := { from_ := "A", to_ := "B", relationType := "knows" }

def exGraphAB : KnowledgeGraph := { entities := [exA, exB], relations := [exRelAB] }

def exStore : Store := { file := none, cache := none }

def exGraphNoRel : KnowledgeGraph := { entities := [exA, exB], relations := [] }


/-! ## Generic helper lemmas -/

theorem replaceFirst_map_eq {α β : Type} (p : α → Bool) (f : α → α) (g : α → β)
    (hf : ∀ a, g (f a) = g a) : ∀ l : List α, (replaceFirst p f l).map g = l.map g := by
  intro l
  induction l with
  | nil => rfl
  | cons x xs ih =>
    by_cases hx : p x
    · simp [replaceFirst, hx, hf]
    · simp [replaceFirst, hx, ih]

theorem length_replaceFirst {α : Type} (p : α → Bool) (f : α → α) :
    ∀ l : List α, (replaceFirst p f l).length = l.length := by
  intro l
  induction l with
  | nil => rfl
  | cons x xs ih =>
    by_cases hx : p x
    · simp [replaceFirst, hx]
    · simp [replaceFirst, hx, ih]

theorem mem_replaceFirst_of_neg {α : Type} {p : α → Bool} {f : α → α} {a : α}
    (hp : p a = false) : ∀ {l : List α}, a ∈ l → a ∈ replaceFirst p f l := by
  intro l hl
  induction l with
  | nil => cases hl
  | cons x xs ih =>
    rcases List.mem_cons.mp hl with h | h
    · subst h
      simp [replaceFirst, hp]
    · by_cases hx : p x
      · simp [replaceFirst, hx, h]
      · simp only [replaceFirst, hx]
        exact List.mem_cons_of_mem x (ih h)

/-! ## Frame lemmas for the delete family -/

theorem deleteObservations_relations (dels : List ObsDeletion) (g : KnowledgeGraph) :
    (deleteObservations dels g).relations = g.relations := by
  induction dels generalizing g with
  | nil => rfl
  | cons d rest ih => exact ih _

theorem deleteObservations_contexts (dels : List ObsDeletion) (g : KnowledgeGraph) :
    (deleteObservations dels g).contexts = g.contexts := by
  induction dels generalizing g with
  | nil => rfl
  | cons d rest ih => exact ih _

theorem deleteObservations_patterns (dels : List ObsDeletion) (g : KnowledgeGraph) :
    (deleteObservations dels g).patterns = g.patterns := by
  induction dels generalizing g with
  | nil => rfl
  | cons d rest ih => exact ih _

theorem deleteObservations_entity_names (dels : List ObsDeletion) (g : KnowledgeGraph) :
    (deleteObservations dels g).entities.map Entity.name = g.entities.map Entity.name := by
  induction dels generalizing g with
  | nil => rfl
  | cons d rest ih =>
    have hstep : (deleteObservations [d] g).entities.map Entity.name
        = g.entities.map Entity.name := by
      show (replaceFirst (fun e => e.name == d.entityName)
          (fun e => { e with observations :=
            e.observations.filter (fun o => !(d.observations.contains o)) })
          g.entities).map Entity.name = g.entities.map Entity.name
      apply replaceFirst_map_eq
      intro a
      rfl
    calc (deleteObservations (d :: rest) g).entities.map Entity.name
        = (deleteObservations rest (deleteObservations [d] g)).entities.map Entity.name := rfl
      _ = (deleteObservations [d] g).entities.map Entity.name := ih _
      _ = g.entities.map Entity.name := hstep

theorem deleteObservations_mem_of_undesignated {dels : List ObsDeletion} {g : KnowledgeGraph}
    {e : Entity} (he : e ∈ g.entities) (hn : ∀ d ∈ dels, e.name ≠ d.entityName) :
    e ∈ (deleteObservations dels g).entities := by
  induction dels generalizing g with
  | nil => exact he
  | cons d rest ih =>
    rw [deleteObservations, List.foldl_cons]
    refine ih ?_ (fun d' hd' => hn d' (List.mem_cons_of_mem d hd'))
    exact mem_replaceFirst_of_neg
      (by simp [hn d (List.mem_cons_self d rest)]) he

/-! ## Persistence round-trip lemmas -/

theorem filterMap_eq_map_of_someF {α β : Type} (F : α → Option β) (f : α → β)
    (hf : ∀ a, F a = some (f a)) : ∀ l : List α, l.filterMap F = l.map f := by
  intro l
  induction l with
  | nil => rfl
  | cons a l ih => simp [List.filterMap_cons, hf, ih]

theorem filterMap_eq_nil_of_noneF {α β : Type} (F : α → Option β)
    (hf : ∀ a, F a = none) : ∀ l : List α, l.filterMap F = [] := by
  intro l
  induction l with
  | nil => rfl
  | cons a l ih => simp [List.filterMap_cons, hf, ih]

theorem foldl_loadStep_entities (recs : List FileRecord) :
    ∀ acc : KnowledgeGraph,
      (recs.foldl loadStep acc).entities = acc.entities ++ recs.filterMap recEntity := by
  induction recs with
  | nil => intro acc; simp
  | cons r recs ih =>
    intro acc
    rw [List.foldl_cons, ih]
    cases r <;> simp [loadStep, recEntity]

theorem foldl_loadStep_relations (recs : List FileRecord) :
    ∀ acc : KnowledgeGraph,
      (recs.foldl loadStep acc).relations = acc.relations ++ recs.filterMap recRelation := by
  induction recs with
  | nil => intro acc; simp
  | cons r recs ih =>
    intro acc
    rw [List.foldl_cons, ih]
    cases r <;> simp [loadStep, recRelation]

theorem foldl_loadStep_contexts (recs : List FileRecord) :
    ∀ acc : KnowledgeGraph,
      (recs.foldl loadStep acc).contexts = acc.contexts ++ recs.filterMap recContext := by
  induction recs with
  | nil => intro acc; simp
  | cons r recs ih =>
    intro acc
    rw [List.foldl_cons, ih]
    cases r <;> simp [loadStep, recContext]

theorem loadRecords_saveLines_entities (now : ℕ) (g : KnowledgeGraph) :
    (loadRecords (saveLines now g)).entities
      = g.entities.map (fun e => { e with updatedAt := some now }) := by
  have hstamp : List.filterMap (recEntity ∘ (fun e : Entity =>
      FileRecord.entity { e with updatedAt := some now })) g.entities
      = g.entities.map (fun e => { e with updatedAt := some now }) :=
    filterMap_eq_map_of_someF _ _ (fun a => rfl) g.entities
  have hrel : List.filterMap (recEntity ∘ (fun r : Relation =>
      FileRecord.relation { r with updatedAt := some now })) g.relations = [] :=
    filterMap_eq_nil_of_noneF _ (fun a => rfl) g.relations
  have hctx : List.filterMap
      (recEntity ∘ (fun c : MemoryContext => FileRecord.context c)) g.contexts = [] :=
    filterMap_eq_nil_of_noneF _ (fun a => rfl) g.contexts
  rw [loadRecords, foldl_loadStep_entities, saveLines, List.filterMap_append,
    List.filterMap_append, List.filterMap_map, List.filterMap_map, List.filterMap_map,
    hstamp, hrel, hctx]
  simp [emptyGraph]

theorem loadRecords_saveLines_relations (now : ℕ) (g : KnowledgeGraph) :
    (loadRecords (saveLines now g)).relations
      = g.relations.map (fun r => { r with updatedAt := some now }) := by
  have hent : List.filterMap (recRelation ∘ (fun e : Entity =>
      FileRecord.entity { e with updatedAt := some now })) g.entities = [] :=
    filterMap_eq_nil_of_noneF _ (fun a => rfl) g.entities
  have hstamp : List.filterMap (recRelation ∘ (fun r : Relation =>
      FileRecord.relation { r with updatedAt := some now })) g.relations
      = g.relations.map (fun r => { r with updatedAt := some now }) :=
    filterMap_eq_map_of_someF _ _ (fun a => rfl) g.relations
  have hctx : List.filterMap
      (recRelation ∘ (fun c : MemoryContext => FileRecord.context c)) g.contexts = [] :=
    filterMap_eq_nil_of_noneF _ (fun a => rfl) g.contexts
  rw [loadRecords, foldl_loadStep_relations, saveLines, List.filterMap_append,
    List.filterMap_append, List.filterMap_map, List.filterMap_map, List.filterMap_map,
    hent, hstamp, hctx]
  simp [emptyGraph]

theorem loadRecords_saveLines_contexts (now : ℕ) (g : KnowledgeGraph) :
    (loadRecords (saveLines now g)).contexts = g.contexts := by
  have hent : List.filterMap (recContext ∘ (fun e : Entity =>
      FileRecord.entity { e with updatedAt := some now })) g.entities = [] :=
    filterMap_eq_nil_of_noneF _ (fun a => rfl) g.entities
  have hrel : List.filterMap (recContext ∘ (fun r : Relation =>
      FileRecord.relation { r with updatedAt := some now })) g.relations = [] :=
    filterMap_eq_nil_of_noneF _ (fun a => rfl) g.relations
  have hstamp : List.filterMap
      (recContext ∘ (fun c : MemoryContext => FileRecord.context c)) g.contexts
      = g.contexts.map (fun c => c) :=
    filterMap_eq_map_of_someF _ _ (fun a => rfl) g.contexts
  rw [loadRecords, foldl_loadStep_contexts, saveLines, List.filterMap_append,
    List.filterMap_append, List.filterMap_map, List.filterMap_map, List.filterMap_map,
    hent, hrel, hstamp]
  simp [emptyGraph]

/-! ## C5 — save/load round trip -/

/-- Claim C5: `saveGraph` followed by `loadGraph` (the save cleared the
cache, so the load is cache-bypassed and re-reads the file) reproduces the
entities, relations and contexts field for field, except that `updatedAt`
is stamped at write time. -/
theorem save_load_roundtrip (g : KnowledgeGraph) (now later : ℕ) :
    ((loadGraphOp later (saveGraphOp now g)).1.entities
       = g.entities.map (fun e => { e with updatedAt := some now })) ∧
    ((loadGraphOp later (saveGraphOp now g)).1.relations
       = g.relations.map (fun r => { r with updatedAt := some now })) ∧
    (loadGraphOp later (saveGraphOp now g)).1.contexts = g.contexts := by
  have h : (loadGraphOp later (saveGraphOp now g)).1 = loadRecords (saveLines now g) := by
    simp [loadGraphOp, saveGraphOp, loadFromFile]
  rw [h]
  exact ⟨loadRecords_saveLines_entities now g, loadRecords_saveLines_relations now g,
    loadRecords_saveLines_contexts now g⟩

/-! ## C1 — cascade delete -/

/-- Claim C1: after `deleteEntities names` the graph contains no entity whose
name is listed and no relation with a listed endpoint, while every untargeted
entity and relation is retained unchanged (the surviving lists are sublists of
the originals and keep every untargeted element). -/
theorem deleteEntities_cascade (g : KnowledgeGraph) (names : List String) :
    (∀ e ∈ (deleteEntities names g).entities, e.name ∉ names) ∧
    (∀ r ∈ (deleteEntities names g).relations, r.from_ ∉ names ∧ r.to_ ∉ names) ∧
    (deleteEntities names g).entities.Sublist g.entities ∧
    (deleteEntities names g).relations.Sublist g.relations ∧
    (∀ e ∈ g.entities, e.name ∉ names → e ∈ (deleteEntities names g).entities) ∧
    (∀ r ∈ g.relations, r.from_ ∉ names → r.to_ ∉ names →
      r ∈ (deleteEntities names g).relations) ∧
    (deleteEntities names g).patterns = g.patterns ∧
    (deleteEntities names g).contexts = g.contexts := by
  refine ⟨?_, ?_, List.filter_sublist _, List.filter_sublist _, ?_, ?_, rfl, rfl⟩
  · intro e he
    have h := (List.mem_filter.mp he).2
    simpa [List.elem_iff] using h
  · intro r hr
    have h := (List.mem_filter.mp hr).2
    simpa [List.elem_iff] using h
  · intro e he hn
    exact List.mem_filter.mpr ⟨he, by simp [List.elem_iff, hn]⟩
  · intro r hr h1 h2
    exact List.mem_filter.mpr ⟨hr, by simp [List.elem_iff, h1, h2]⟩

/-- Witness for C1: in the concrete two-entity graph, deleting `"A"` keeps
the untargeted entity `"B"`. -/
theorem deleteEntities_cascade_witness :
    exB ∈ (deleteEntities ["A"] exGraphAB).entities :=
  (deleteEntities_cascade exGraphAB ["A"]).2.2.2.2.1 exB (by decide) (by decide)

/-! ## C10 — deletes never fail and are frame-respecting -/

/-- Claim C10: `deleteEntities`, `deleteObservations` and `deleteRelations`
never fail: unmatched names/observations/triples are silently ignored, the
operation still persists a file, and everything not designated by the input
is unchanged. -/
theorem deletes_never_fail (now : ℕ) (s : Store) (g : KnowledgeGraph)
    (names : List String) (dels : List ObsDeletion) (rels : List RelKey) :
    (storeDeleteEntities now names s).file
      = some (saveLines now (deleteEntities names (loadGraphOp now s).1)) ∧
    (storeDeleteObservations now dels s).file
      = some (saveLines now (deleteObservations dels (loadGraphOp now s).1)) ∧
    (storeDeleteRelations now rels s).file
      = some (saveLines now (deleteRelations rels (loadGraphOp now s).1)) ∧
    (deleteObservations dels g).relations = g.relations ∧
    (deleteObservations dels g).contexts = g.contexts ∧
    (deleteObservations dels g).patterns = g.patterns ∧
    (deleteObservations dels g).entities.map Entity.name = g.entities.map Entity.name ∧
    (∀ e ∈ g.entities, (∀ d ∈ dels, e.name ≠ d.entityName) →
      e ∈ (deleteObservations dels g).entities) ∧
    (deleteRelations rels g).entities = g.entities ∧
    (deleteRelations rels g).contexts = g.contexts ∧
    (deleteRelations rels g).patterns = g.patterns ∧
    (deleteRelations rels g).relations.Sublist g.relations ∧
    (∀ r ∈ g.relations,
      (∀ d ∈ rels, ¬(r.from_ = d.from_ ∧ r.to_ = d.to_ ∧ r.relationType = d.relationType)) →
      r ∈ (deleteRelations rels g).relations) ∧
    (∀ e ∈ g.entities, e.name ∉ names → e ∈ (deleteEntities names g).entities) ∧
    (∀ r ∈ g.relations, r.from_ ∉ names → r.to_ ∉ names →
      r ∈ (deleteEntities names g).relations) := by
  rcases hL : loadGraphOp now s with ⟨g0, s1, ts⟩
  refine ⟨?_, ?_, ?_, deleteObservations_relations _ _, deleteObservations_contexts _ _,
    deleteObservations_patterns _ _, deleteObservations_entity_names _ _, ?_, rfl, rfl, rfl,
    List.filter_sublist _, ?_, ?_, ?_⟩
  · simp [storeDeleteEntities, hL, saveGraphOp]
  · simp [storeDeleteObservations, hL, saveGraphOp]
  · simp [storeDeleteRelations, hL, saveGraphOp]
  · intro e he hn
    exact deleteObservations_mem_of_undesignated he hn
  · intro r hr hn
    refine List.mem_filter.mpr ⟨hr, ?_⟩
    simp only [Bool.not_eq_true', List.any_eq_false, Bool.and_eq_true, beq_iff_eq]
    intro d hd
    have h := hn d hd
    tauto
  · intro e he hn
    exact List.mem_filter.mpr ⟨he, by simp [List.elem_iff, hn]⟩
  · intro r hr h1 h2
    exact List.mem_filter.mpr ⟨hr, by simp [List.elem_iff, h1, h2]⟩

/-- Witness for C10: an observation-deletion batch naming only the absent
entity `"Z"` leaves the concrete graph's entity `"A"` in place. -/
theorem deletes_never_fail_witness :
    exA ∈ (deleteObservations [⟨"Z", ["q"]⟩] exGraphAB).entities :=
  (deletes_never_fail 0 exStore exGraphAB [] [⟨"Z", ["q"]⟩] []).2.2.2.2.2.2.2.1
    exA (by decide) (by decide)

/-! ## Entity-name preservation lemmas (towards C2) -/

theorem any_name_eq_iff (l : List Entity) (n : String) :
    l.any (fun x => x.name == n) = true ↔ n ∈ l.map Entity.name := by
  rw [List.any_eq_true]
  constructor
  · rintro ⟨x, hx, hbeq⟩
    exact List.mem_map.mpr ⟨x, hx, beq_iff_eq.mp hbeq⟩
  · intro h
    rcases List.mem_map.mp h with ⟨x, hx, rfl⟩
    exact ⟨x, hx, beq_self_eq_true _⟩

theorem length_filter_name_eq (n : String) :
    ∀ l : List Entity, (l.map Entity.name).Nodup →
      (l.filter (fun x => x.name == n)).length = if n ∈ l.map Entity.name then 1 else 0 := by
  intro l
  induction l with
  | nil => simp
  | cons b l ih =>
    intro h
    simp only [List.map_cons, List.nodup_cons] at h
    by_cases hb : b.name = n
    · subst hb
      rw [List.filter_cons_of_pos (by simp)]
      simp [ih h.2, h.1]
    · rw [List.filter_cons_of_neg (by simp [hb])]
      rw [ih h.2]
      have hnb : ¬ n = b.name := fun hcon => hb hcon.symm
      simp [List.mem_cons, hnb]

theorem map_name_map_of_preserve (f : Entity → Entity)
    (hf : ∀ e, (f e).name = e.name) (l : List Entity) :
    (l.map f).map Entity.name = l.map Entity.name := by
  rw [List.map_map]
  exact List.map_congr_left (fun e _ => hf e)

theorem createEntities_entities_eq (now : ℕ) (es : List Entity) (g : KnowledgeGraph) :
    (createEntities now es g).1.entities = g.entities ++ (createEntities now es g).2 := rfl

theorem createEntities_created_names_sublist (now : ℕ) (es : List Entity)
    (g : KnowledgeGraph) :
    ((createEntities now es g).2.map Entity.name).Sublist (es.map Entity.name) := by
  have h1 : ((createEntities now es g).2.map Entity.name).Sublist
      ((es.map (stampNewEntity now)).map Entity.name) :=
    (List.filter_sublist _).map _
  have h2 : (es.map (stampNewEntity now)).map Entity.name = es.map Entity.name :=
    map_name_map_of_preserve (stampNewEntity now) (fun e => rfl) es
  rwa [h2] at h1

theorem createEntities_names_nodup (now : ℕ) (es : List Entity) (g : KnowledgeGraph)
    (hnd : (es.map Entity.name).Nodup)
    (hg : (g.entities.map Entity.name).Nodup) :
    ((createEntities now es g).1.entities.map Entity.name).Nodup := by
  rw [createEntities_entities_eq, List.map_append, List.nodup_append]
  refine ⟨hg, (createEntities_created_names_sublist now es g).nodup hnd, ?_⟩
  intro a hag hacreated
  rcases List.mem_map.mp hacreated with ⟨e', he', rfl⟩
  have h := (List.mem_filter.mp he').2
  rw [Bool.not_eq_true'] at h
  have hne : ¬ (e'.name ∈ g.entities.map Entity.name) := by
    intro hmem
    rw [← any_name_eq_iff] at hmem
    rw [hmem] at h
    cases h
  exact hne hag

theorem addObsStep_entity_names (now : ℕ) (n : String) (obs : List String)
    (g : KnowledgeGraph) :
    (addObsStep now n obs g).entities.map Entity.name = g.entities.map Entity.name := by
  have h : (addObsStep now n obs g).entities = replaceFirst (fun e => e.name == n)
      (fun e => updateEntityMetadata now
        { e with observations := e.observations ++ obs }) g.entities := rfl
  rw [h]
  apply replaceFirst_map_eq
  intro a
  rfl

theorem addObsLoop_snd_cons (now : ℕ) (o : ObsItem) (rest : List ObsItem)
    (g : KnowledgeGraph) (entity : Entity)
    (hf : g.entities.find? (fun e => e.name == o.entityName) = some entity) :
    (addObsLoop now (o :: rest) g).2
      = (addObsLoop now rest (addObsStep now o.entityName
          (o.contents.filter (fun c => !(entity.observations.contains c))) g)).2 := by
  simp only [addObsLoop, hf]
  cases h : addObsLoop now rest (addObsStep now o.entityName
      (o.contents.filter (fun c => !(entity.observations.contains c))) g) with
  | mk res g'' => cases res <;> rfl

theorem addObsLoop_entity_names (now : ℕ) : ∀ (items : List ObsItem) (g : KnowledgeGraph),
    (addObsLoop now items g).2.entities.map Entity.name = g.entities.map Entity.name := by
  intro items
  induction items with
  | nil => intro g; rfl
  | cons o rest ih =>
    intro g
    cases hf : g.entities.find? (fun e => e.name == o.entityName) with
    | none => simp [addObsLoop, hf]
    | some entity =>
      rw [addObsLoop_snd_cons now o rest g entity hf, ih, addObsStep_entity_names]

theorem addObservations_entity_names (now : ℕ) (items : List ObsItem) (g : KnowledgeGraph) :
    (addObservations now items g).2.entities.map Entity.name
      = g.entities.map Entity.name := by
  rw [← addObsLoop_entity_names now items g]
  rcases hl : addObsLoop now items g with ⟨res, g''⟩
  cases res <;> simp [addObservations, hl]

theorem optimizeMemory_entity_names (now : ℕ) (g : KnowledgeGraph) :
    (optimizeMemory now g).entities.map Entity.name = g.entities.map Entity.name := by
  apply map_name_map_of_preserve
  intro e
  dsimp only [optimizeEntityPriority]
  split <;> rfl

theorem searchNodes_entity_names (now : ℕ) (q : String) (g : KnowledgeGraph) :
    (searchNodes now q g).2.entities.map Entity.name = g.entities.map Entity.name := by
  apply map_name_map_of_preserve
  intro e
  dsimp only
  split <;> rfl

theorem reload_entity_names (now : ℕ) (g : KnowledgeGraph) :
    (loadRecords (saveLines now g)).entities.map Entity.name
      = g.entities.map Entity.name := by
  rw [loadRecords_saveLines_entities]
  exact map_name_map_of_preserve (fun e => { e with updatedAt := some now })
    (fun e => rfl) g.entities

/-- Every graph reachable with duplicate-free creation batches has
duplicate-free entity names. -/
theorem ReachableU.nodup_names : ∀ {g : KnowledgeGraph}, ReachableU g →
    (g.entities.map Entity.name).Nodup := by
  intro g h
  induction h with
  | empty => simp [emptyGraph]
  | createEntities now es hnd h ih => exact createEntities_names_nodup now es _ hnd ih
  | createRelations now rs h ih => exact ih
  | addObservations now items h ih => rw [addObservations_entity_names]; exact ih
  | deleteEntities names h ih =>
    exact ((List.filter_sublist _).map Entity.name).nodup ih
  | deleteObservations dels h ih => rw [deleteObservations_entity_names]; exact ih
  | deleteRelations rels h ih => exact ih
  | optimizeMemory now h ih => rw [optimizeMemory_entity_names]; exact ih
  | searchNodes now q h ih => rw [searchNodes_entity_names]; exact ih
  | createContext ctx h ih => exact ih
  | reload now h ih => rw [reload_entity_names]; exact ih

/-! ## C2 — uniqueness of entity names -/

/-- Counterexample to C2 as stated: one `createEntities` call whose batch
repeats a name — a public operation applied to the empty graph — produces a
reachable graph carrying two entities named `"A"`, so entity names are not
unique in every reachable graph. -/
theorem entity_names_unique_counterexample :
    ((createEntities 5 [exA, exA] emptyGraph).1.entities.map Entity.name) = ["A", "A"] ∧
    ¬ ((createEntities 5 [exA, exA] emptyGraph).1.entities.map Entity.name).Nodup := by
  constructor
  · decide
  · decide

/-- Claim C2 (amended): provided every `createEntities` batch carries
pairwise-distinct names, entity names are unique in every graph reachable
from the empty graph by the public operations; and calling `createEntities`
twice with the same entity yields exactly one stored entity of that name,
the second call returning an empty created list. -/
theorem entity_names_unique (g : KnowledgeGraph) (hg : ReachableU g) (e : Entity)
    (now now2 : ℕ) :
    (g.entities.map Entity.name).Nodup ∧
    ((createEntities now [e] g).1.entities.filter (fun x => x.name == e.name)).length = 1 ∧
    (createEntities now2 [e] (createEntities now [e] g).1).2 = [] ∧
    ((createEntities now2 [e] (createEntities now [e] g).1).1.entities.filter
      (fun x => x.name == e.name)).length = 1 := by
  have h0 := hg.nodup_names
  have hg1 : ReachableU (createEntities now [e] g).1 :=
    ReachableU.createEntities now [e] (by simp) hg
  have h1 := hg1.nodup_names
  have hmem1 : e.name ∈ (createEntities now [e] g).1.entities.map Entity.name := by
    rw [createEntities_entities_eq, List.map_append]
    by_cases hmem : e.name ∈ g.entities.map Entity.name
    · exact List.mem_append.mpr (Or.inl hmem)
    · refine List.mem_append.mpr (Or.inr ?_)
      have hany : (g.entities.any (fun x => x.name == (stampNewEntity now e).name)) = false := by
        rw [Bool.eq_false_iff]
        intro hc
        exact hmem ((any_name_eq_iff _ _).mp hc)
      have hcreated : (createEntities now [e] g).2 = [stampNewEntity now e] := by
        show ((List.map (stampNewEntity now) [e]).filter
          (fun x => !(g.entities.any (fun ex => ex.name == x.name)))) = [stampNewEntity now e]
        simp [List.filter_cons, hany]
      rw [hcreated]
      exact List.mem_map.mpr ⟨stampNewEntity now e, List.mem_singleton_self _, rfl⟩
  have hcount1 : ((createEntities now [e] g).1.entities.filter
      (fun x => x.name == e.name)).length = 1 := by
    rw [length_filter_name_eq e.name _ h1, if_pos hmem1]
  have hany1 : ((createEntities now [e] g).1.entities.any
      (fun x => x.name == (stampNewEntity now2 e).name)) = true :=
    (any_name_eq_iff _ _).mpr hmem1
  have hc2 : (createEntities now2 [e] (createEntities now [e] g).1).2 = [] := by
    show ((List.map (stampNewEntity now2) [e]).filter
      (fun x => !((createEntities now [e] g).1.entities.any
        (fun ex => ex.name == x.name)))) = []
    simp [List.filter_cons, hany1]
  have hents2 : (createEntities now2 [e] (createEntities now [e] g).1).1.entities
      = (createEntities now [e] g).1.entities := by
    rw [createEntities_entities_eq, hc2, List.append_nil]
  exact ⟨h0, hcount1, hc2, by rw [hents2]; exact hcount1⟩

/-- Witness for C2 at the empty (trivially reachable) graph and a concrete
entity. -/
theorem entity_names_unique_witness :
    (emptyGraph.entities.map Entity.name).Nodup ∧
    ((createEntities 1 [exA] emptyGraph).1.entities.filter
      (fun x => x.name == exA.name)).length = 1 ∧
    (createEntities 2 [exA] (createEntities 1 [exA] emptyGraph).1).2 = [] ∧
    ((createEntities 2 [exA] (createEntities 1 [exA] emptyGraph).1).1.entities.filter
      (fun x => x.name == exA.name)).length = 1 :=
  entity_names_unique emptyGraph ReachableU.empty exA 1 2

/-! ## C3 — addObservations error semantics -/

theorem addObsLoop_isOk_cons (now : ℕ) (o : ObsItem) (rest : List ObsItem)
    (g : KnowledgeGraph) (entity : Entity)
    (hf : g.entities.find? (fun e => e.name == o.entityName) = some entity) :
    (addObsLoop now (o :: rest) g).1.isOk
      = (addObsLoop now rest (addObsStep now o.entityName
          (o.contents.filter (fun c => !(entity.observations.contains c))) g)).1.isOk := by
  simp only [addObsLoop, hf]
  cases h : addObsLoop now rest (addObsStep now o.entityName
      (o.contents.filter (fun c => !(entity.observations.contains c))) g) with
  | mk res g'' => cases res <;> rfl

theorem addObsLoop_error_iff (now : ℕ) : ∀ (items : List ObsItem) (g : KnowledgeGraph),
    ((addObsLoop now items g).1.isOk = false ↔
      ∃ o ∈ items, o.entityName ∉ g.entities.map Entity.name) := by
  intro items
  induction items with
  | nil => intro g; simp [addObsLoop, Except.isOk, Except.toBool]
  | cons o rest ih =>
    intro g
    cases hf : g.entities.find? (fun e => e.name == o.entityName) with
    | none =>
      have hmiss : o.entityName ∉ g.entities.map Entity.name := by
        intro hmem
        rcases List.mem_map.mp hmem with ⟨x, hx, hname⟩
        have := List.find?_eq_none.mp hf x hx
        simp [hname] at this
      have herr2 : (addObsLoop now (o :: rest) g).1.isOk = false := by
        simp [addObsLoop, hf, Except.isOk, Except.toBool]
      constructor
      · intro _
        exact ⟨o, List.mem_cons_self o rest, hmiss⟩
      · intro _
        exact herr2
    | some entity =>
      have hpresent : o.entityName ∈ g.entities.map Entity.name := by
        refine List.mem_map.mpr ⟨entity, List.mem_of_find?_eq_some hf, ?_⟩
        have := List.find?_some hf
        exact beq_iff_eq.mp this
      rw [addObsLoop_isOk_cons now o rest g entity hf, ih]
      constructor
      · rintro ⟨o', ho', hmiss⟩
        refine ⟨o', List.mem_cons_of_mem o ho', ?_⟩
        rwa [addObsStep_entity_names] at hmiss
      · rintro ⟨o', ho', hmiss⟩
        rcases List.mem_cons.mp ho' with h | h
        · subst h
          exact absurd hpresent hmiss
        · refine ⟨o', h, ?_⟩
          rwa [addObsStep_entity_names]

theorem addObservations_isOk (now : ℕ) (items : List ObsItem) (g : KnowledgeGraph) :
    (addObservations now items g).1.isOk = (addObsLoop now items g).1.isOk := by
  rcases hl : addObsLoop now items g with ⟨res, g''⟩
  cases res <;> simp [addObservations, hl]

theorem loadGraphOp_file (now : ℕ) (s : Store) : (loadGraphOp now s).2.1.file = s.file := by
  rcases s with ⟨file, cache⟩
  cases cache with
  | none => cases file <;> simp [loadGraphOp, loadFromFile]
  | some c =>
    rcases c with ⟨g, ts⟩
    by_cases h : now - ts < CACHE_TTL
    · simp [loadGraphOp, h]
    · cases file <;> simp [loadGraphOp, loadFromFile, h]

/-- Claim C3 (amended): `addObservations` fails with NotFound exactly when
some batch item names an entity absent from the graph; on failure no save
happens, so the persisted file is unchanged — but the failure is not atomic
for the in-memory graph: items processed before the first missing entity
keep their observations in the loaded (cached) object, as the
counterexample exhibits. -/
theorem addObservations_error_semantics (now : ℕ) (items : List ObsItem)
    (g : KnowledgeGraph) (s : Store) :
    ((addObservations now items g).1.isOk = false ↔
      ∃ o ∈ items, o.entityName ∉ g.entities.map Entity.name) ∧
    ((storeAddObservations now items s).1.isOk = false →
      (storeAddObservations now items s).2.file = s.file) := by
  constructor
  · rw [addObservations_isOk]
    exact addObsLoop_error_iff now items g
  · intro herr
    rcases hL : loadGraphOp now s with ⟨g0, s1, ts⟩
    have hfile : s1.file = s.file := by
      have := loadGraphOp_file now s
      rw [hL] at this
      exact this
    rcases hA : addObservations now items g0 with ⟨res, g'⟩
    cases res with
    | ok rs =>
      exfalso
      rw [storeAddObservations, hL] at herr
      simp [hA, Except.isOk, Except.toBool] at herr
    | error m =>
      rw [storeAddObservations, hL]
      simp only [hA]
      cases ts <;> simpa using hfile

/-- Witness for C3: a batch naming the absent entity `"B"` makes
`addObservations` fail on the concrete one-entity graph. -/
theorem addObservations_error_semantics_witness :
    (addObservations 7 [⟨"B", ["y"]⟩] c3Graph).1.isOk = false :=
  (addObservations_error_semantics 7 [⟨"B", ["y"]⟩] c3Graph c3Store).1.mpr
    ⟨⟨"B", ["y"]⟩, by decide, by decide⟩

/-- Counterexample to C3's atomicity as stated: on the cached one-entity
graph, a batch that first adds `"x"` to `"A"` and then hits the missing
entity `"B"` errors out, yet a subsequent `loadGraph` (cache hit) already
shows `"x"` stored on `"A"` — the batch was not rolled back. -/
theorem addObservations_not_atomic_counterexample :
    (storeAddObservations 1000 [⟨"A", ["x"]⟩, ⟨"B", ["y"]⟩] c3Store).1
      = Except.error "Entity with name B not found" ∧
    ((loadGraphOp 1000 (storeAddObservations 1000
        [⟨"A", ["x"]⟩, ⟨"B", ["y"]⟩] c3Store).2).1.entities.map
          Entity.observations) = [["x"]] := by
  constructor
  · rfl
  · decide

/-! ## C4 — relation dedup and the strength formula -/

theorem sharedObs_count_eq (e1 e2 : Entity) :
    (e1.observations.filter (fun obs => e2.observations.contains obs)).length
      = sharedObservationsSpec e1 e2 := by
  rw [sharedObservationsSpec, List.countP_eq_length_filter]
  congr 1
  apply List.filter_congr
  intro obs _
  by_cases h : obs ∈ e2.observations <;> simp [h, List.elem_iff]

/-- The code's strength computation agrees with the claim's formula. -/
theorem calculateRelationStrength_eq_spec (now : ℕ) (r : Relation) (g : KnowledgeGraph) :
    calculateRelationStrength now r g = strengthSpec now g.entities r := by
  rw [calculateRelationStrength, strengthSpec]
  cases h1 : g.entities.find? (fun e => e.name == r.from_) with
  | none => rfl
  | some e1 =>
    cases h2 : g.entities.find? (fun e => e.name == r.to_) with
    | none => rfl
    | some e2 =>
      dsimp only
      rw [sharedObs_count_eq]
      simp only [recencyFactorSpec, accessFactorSpec]
      split
      · rfl
      · congr 1
        ring

theorem strengthSpec_strength_irrel (now : ℕ) (ents : List Entity) (r : Relation)
    (s : Option JVal) :
    strengthSpec now ents { r with strength := s } = strengthSpec now ents r := rfl

/-- Claim C4: `createRelations` inserts exactly the input relations whose
`(from,to,relationType)` triple is absent from the graph, leaves entities
and contexts alone, and afterwards every relation of the graph carries
`strength = 0.4*accessFactor + 0.3*(1/recencyFactor) +
0.3*sharedObservations` (strength 0 when an endpoint entity is missing,
JavaScript `Infinity` when `recencyFactor` is zero — in particular on the
relations just inserted). -/
theorem createRelations_strength (now : ℕ) (rels : List Relation) (g : KnowledgeGraph) :
    (∀ r ∈ (createRelations now rels g).2, ∀ r0 ∈ g.relations,
      ¬(r0.from_ = r.from_ ∧ r0.to_ = r.to_ ∧ r0.relationType = r.relationType)) ∧
    (∀ i ∈ rels, (∀ r0 ∈ g.relations,
        ¬(r0.from_ = i.from_ ∧ r0.to_ = i.to_ ∧ r0.relationType = i.relationType)) →
      ∃ r ∈ (createRelations now rels g).2,
        r.from_ = i.from_ ∧ r.to_ = i.to_ ∧ r.relationType = i.relationType) ∧
    ((createRelations now rels g).1.entities = g.entities) ∧
    ((createRelations now rels g).1.contexts = g.contexts) ∧
    (∀ r ∈ (createRelations now rels g).1.relations,
      r.strength = some (strengthSpec now g.entities r)) := by
  refine ⟨?_, ?_, rfl, rfl, ?_⟩
  · intro r hr r0 hr0 hcon
    have h := (List.mem_filter.mp hr).2
    rw [Bool.not_eq_true', List.any_eq_false] at h
    have h0 := h r0 hr0
    simp only [Bool.and_eq_true, beq_iff_eq] at h0
    tauto
  · intro i hi hnone
    refine ⟨stampNewRelation now i, ?_, rfl, rfl, rfl⟩
    refine List.mem_filter.mpr ⟨List.mem_map.mpr ⟨i, hi, rfl⟩, ?_⟩
    rw [Bool.not_eq_true', List.any_eq_false]
    intro r0 hr0
    have h0 := hnone r0 hr0
    simp only [Bool.and_eq_true, beq_iff_eq]
    tauto
  · intro r' hr'
    have hrel : (createRelations now rels g).1.relations
        = ((g.relations ++ (createRelations now rels g).2).map (fun r =>
            { r with strength := some (calculateRelationStrength now r
              { g with relations := g.relations ++ (createRelations now rels g).2 }) })) := rfl
    rw [hrel] at hr'
    rcases List.mem_map.mp hr' with ⟨r0, _, rfl⟩
    exact congrArg some ((calculateRelationStrength_eq_spec now r0
      { g with relations := g.relations ++ (createRelations now rels g).2 }).trans
      (strengthSpec_strength_irrel now g.entities r0 _).symm)

/-- Witness for C4: inserting the concrete relation into the relation-free
two-entity graph actually adds it. -/
theorem createRelations_strength_witness :
    ∃ r ∈ (createRelations 6 [exRelAB] exGraphNoRel).2,
      r.from_ = exRelAB.from_ ∧ r.to_ = exRelAB.to_ ∧
      r.relationType = exRelAB.relationType :=
  (createRelations_strength 6 [exRelAB] exGraphNoRel).2.1 exRelAB (by decide) (by decide)

/-! ## C6 — optimizeMemory postconditions -/

theorem foldl_add_priority (l : List MemoryContext) :
    ∀ init : ℚ, l.foldl (fun sum ctx => sum + ctx.priority) init
      = init + (l.map MemoryContext.priority).sum := by
  induction l with
  | nil => intro init; simp
  | cons c l ih =>
    intro init
    rw [List.foldl_cons, ih, List.map_cons, List.sum_cons]
    ring

theorem keptContexts_length (now : ℕ) (g : KnowledgeGraph) :
    (keptContexts now g).length ≤ MAX_CONTEXTS ∨
    (keptContexts now g) = (liveContexts now g).insertionSort ctxGE := by
  rw [keptContexts]
  split
  · exact Or.inl (List.length_take_le _ _)
  · exact Or.inr rfl

theorem keptContexts_subset_live (now : ℕ) (g : KnowledgeGraph) :
    ∀ ctx ∈ keptContexts now g, ctx ∈ liveContexts now g := by
  intro ctx hctx
  rw [keptContexts] at hctx
  have hsorted : ctx ∈ (liveContexts now g).insertionSort ctxGE := by
    by_cases h : MAX_CONTEXTS < ((liveContexts now g).insertionSort ctxGE).length
    · rw [if_pos h] at hctx
      exact List.take_subset _ _ hctx
    · rwa [if_neg h] at hctx
  exact (List.perm_insertionSort ctxGE (liveContexts now g)).subset hsorted

/-- Counterexample to C6 as stated: a context with `validUntil = 0` is
falsy for JavaScript's `!ctx.validUntil` test and is retained by
`optimizeMemory`, although its `validUntil` is set and not strictly later
than `now = 1000`. -/
theorem optimizeMemory_validUntil_counterexample :
    ((optimizeMemory 1000 c6Graph).contexts.map MemoryContext.validUntil) = [some 0] ∧
    ¬ ((1000 : ℕ) < 0) := by
  constructor
  · decide
  · decide

/-- Claim C6 (amended): after `optimizeMemory`, at most 1000 contexts
remain, each retained context has `validUntil` unset, zero (JavaScript
treats `0` as unset), or strictly later than now, the list is sorted by
priority descending, and each entity referenced by a retained context gets
the mean priority of the retaining contexts while the others are
unchanged. -/
theorem optimizeMemory_spec (now : ℕ) (g : KnowledgeGraph) :
    (optimizeMemory now g).contexts.length ≤ MAX_CONTEXTS ∧
    (∀ ctx ∈ (optimizeMemory now g).contexts,
      ctx.validUntil = none ∨ ctx.validUntil = some 0 ∨
      ∃ v, ctx.validUntil = some v ∧ now < v) ∧
    (optimizeMemory now g).contexts.Pairwise (fun a b => b.priority ≤ a.priority) ∧
    (optimizeMemory now g).entities.length = g.entities.length ∧
    (∀ i (h1 : i < g.entities.length) (h2 : i < (optimizeMemory now g).entities.length),
      ((((optimizeMemory now g).contexts.filter
          (fun ctx => ctx.entities.contains (g.entities.get ⟨i, h1⟩).name)).length = 0 →
        (optimizeMemory now g).entities.get ⟨i, h2⟩ = g.entities.get ⟨i, h1⟩) ∧
      ((((optimizeMemory now g).contexts.filter
          (fun ctx => ctx.entities.contains (g.entities.get ⟨i, h1⟩).name)).length ≠ 0) →
        (optimizeMemory now g).entities.get ⟨i, h2⟩
          = meanPrioritySpec (optimizeMemory now g).contexts (g.entities.get ⟨i, h1⟩)))) := by
  have hc : (optimizeMemory now g).contexts = keptContexts now g := rfl
  refine ⟨?_, ?_, ?_, ?_, ?_⟩
  · rw [hc]
    rcases keptContexts_length now g with h | h
    · exact h
    · rw [keptContexts]
      split
      · exact List.length_take_le _ _
      · next hn => exact Nat.le_of_not_lt hn
  · intro ctx hctx
    rw [hc] at hctx
    have hlive := keptContexts_subset_live now g ctx hctx
    have hcond := (List.mem_filter.mp hlive).2
    cases hv : ctx.validUntil with
    | none => exact Or.inl rfl
    | some v =>
      rw [hv] at hcond
      by_cases hz : v = 0
      · exact Or.inr (Or.inl (by rw [hz]))
      · refine Or.inr (Or.inr ⟨v, rfl, ?_⟩)
        have hcond2 : (if v = 0 then true else decide (now < v)) = true := hcond
        rw [if_neg hz] at hcond2
        exact of_decide_eq_true hcond2
  · rw [hc, keptContexts]
    have hs := List.sorted_insertionSort ctxGE (liveContexts now g)
    split
    · exact List.Pairwise.sublist (List.take_sublist _ _) hs
    · exact hs
  · rw [show (optimizeMemory now g).entities
        = g.entities.map (optimizeEntityPriority (keptContexts now g)) from rfl]
    exact List.length_map _ _
  · intro i h1 h2
    have hget : (optimizeMemory now g).entities.get ⟨i, h2⟩
        = optimizeEntityPriority (keptContexts now g) (g.entities.get ⟨i, h1⟩) := by
      exact List.get_map _
    rw [hget, hc, optimizeEntityPriority]
    constructor
    · intro hzero
      rw [if_pos hzero]
    · intro hnz
      rw [if_neg hnz, meanPrioritySpec]
      rw [foldl_add_priority, zero_add]

/-- Witness for C6 at a concrete graph: the single unexpired context is
retained and satisfies the amended validity disjunction. -/
theorem optimizeMemory_spec_witness :
    ∀ ctx ∈ (optimizeMemory 1000 c6Graph).contexts,
      ctx.validUntil = none ∨ ctx.validUntil = some 0 ∨
      ∃ v, ctx.validUntil = some v ∧ 1000 < v :=
  (optimizeMemory_spec 1000 c6Graph).2.1

/-! ## C7 — quality metric bounds -/

theorem completenessOf_bounds (e : Entity) :
    0 ≤ completenessOf e ∧ completenessOf e ≤ 1 := by
  rw [completenessOf]
  constructor
  · positivity
  · rw [div_le_one (by norm_num)]
    have h : ((if e.tags.isSome then 1 else 0) + (if e.metadata.isSome then 1 else 0) +
        (if jsStrTruthy e.contextCategory then 1 else 0) +
        (if jsStrTruthy e.source then 1 else 0) : ℕ) ≤ 4 := by
      split_ifs <;> norm_num
    exact_mod_cast h

theorem checkConsistency_bounds (obs : List String) (h : obs ≠ []) :
    ∃ c, checkConsistency obs = some c ∧ 0 ≤ c ∧ c ≤ 1 := by
  have hlen : ¬ obs.length = 0 := by simpa [List.length_eq_zero] using h
  rw [checkConsistency, if_neg hlen]
  refine ⟨_, rfl, le_max_left _ _, ?_⟩
  apply max_le
  · norm_num
  · have h0 : (0 : ℚ) ≤ (countContradictions obs : ℚ) / (obs.length : ℚ) := by positivity
    linarith

theorem recencyOf_bounds (now : ℕ) (e : Entity) (h : jsOrNat e.updatedAt now ≤ now) :
    0 ≤ recencyOf now e ∧ recencyOf now e ≤ 1 := by
  constructor
  · exact (Real.exp_pos _).le
  · rw [recencyOf]
    apply Real.exp_le_one_iff.mpr
    have hle : (jsOrNat e.updatedAt now : ℝ) ≤ (now : ℝ) := by exact_mod_cast h
    have hnum : (0 : ℝ) ≤ (now : ℝ) - (jsOrNat e.updatedAt now : ℝ) := by linarith
    have hden : (0 : ℝ) < 30 * (DAY_MS : ℝ) := by
      norm_num [DAY_MS]
    have hq := div_nonneg hnum hden.le
    rw [neg_div]
    linarith [hq]

theorem relevanceOf_bounds (e : Entity) (h : e.accessCount.getD 0 ≤ 100) :
    0 ≤ relevanceOf e ∧ relevanceOf e ≤ 1 := by
  rw [relevanceOf]
  constructor
  · positivity
  · rw [div_le_one (by norm_num)]
    exact_mod_cast h

theorem reliabilityOf_bounds (e : Entity) :
    0 ≤ reliabilityOf e ∧ reliabilityOf e ≤ 1 := by
  rw [reliabilityOf]
  split_ifs <;> norm_num

/-- Counterexample to C7 as stated: an entity with `accessCount = 200` has
`relevance = accessCount / 100 = 2`, outside `[0, 1]` — the source does not
clamp it. -/
theorem quality_relevance_counterexample :
    (calculateQualityMetrics 0 exHot).relevance = 2 ∧
    ¬ ((calculateQualityMetrics 0 exHot).relevance ≤ 1) := by
  constructor
  · show relevanceOf exHot = 2
    norm_num [relevanceOf, exHot]
  · show ¬ (relevanceOf exHot ≤ 1)
    norm_num [relevanceOf, exHot]

/-- Claim C7 (amended): for an entity with at least one observation
(`checkConsistency` divides by the observation count, `0/0` being `NaN`),
`accessCount ≤ 100` (relevance is unclamped above that) and an update stamp
not in the future (recency exceeds 1 otherwise), all five quality
sub-metrics lie in `[0, 1]` and so does the equal-weight aggregate. -/
theorem qualityMetrics_bounds (now : ℕ) (e : Entity)
    (hobs : e.observations ≠ []) (hacc : e.accessCount.getD 0 ≤ 100)
    (hupd : jsOrNat e.updatedAt now ≤ now) :
    (0 ≤ (calculateQualityMetrics now e).completeness ∧
      (calculateQualityMetrics now e).completeness ≤ 1) ∧
    (∃ c, (calculateQualityMetrics now e).consistency = some c ∧ 0 ≤ c ∧ c ≤ 1) ∧
    (0 ≤ (calculateQualityMetrics now e).recency ∧
      (calculateQualityMetrics now e).recency ≤ 1) ∧
    (0 ≤ (calculateQualityMetrics now e).relevance ∧
      (calculateQualityMetrics now e).relevance ≤ 1) ∧
    (0 ≤ (calculateQualityMetrics now e).reliability ∧
      (calculateQualityMetrics now e).reliability ≤ 1) ∧
    (∃ q, qualityScore now e = some q ∧ 0 ≤ q ∧ q ≤ 1) := by
  have hcomp := completenessOf_bounds e
  rcases checkConsistency_bounds e.observations hobs with ⟨c, hc, hc0, hc1⟩
  have hrec := recencyOf_bounds now e hupd
  have hrel := relevanceOf_bounds e hacc
  have hre := reliabilityOf_bounds e
  refine ⟨hcomp, ⟨c, hc, hc0, hc1⟩, hrec, hrel, hre, ?_⟩
  rw [qualityScore, hc]
  simp only [Option.map_some']
  refine ⟨_, rfl, ?_, ?_⟩
  · have h1 : (0:ℝ) ≤ (completenessOf e : ℝ) := by exact_mod_cast hcomp.1
    have h2 : (0:ℝ) ≤ (c : ℝ) := by exact_mod_cast hc0
    have h3 := hrec.1
    have h4 : (0:ℝ) ≤ (relevanceOf e : ℝ) := by exact_mod_cast hrel.1
    have h5 : (0:ℝ) ≤ (reliabilityOf e : ℝ) := by exact_mod_cast hre.1
    have h3' : 0 ≤ recencyOf now e := h3
    nlinarith [h1, h2, h3', h4, h5]
  · have h1 : (completenessOf e : ℝ) ≤ 1 := by exact_mod_cast hcomp.2
    have h2 : (c : ℝ) ≤ 1 := by exact_mod_cast hc1
    have h3 := hrec.2
    have h4 : (relevanceOf e : ℝ) ≤ 1 := by exact_mod_cast hrel.2
    have h5 : (reliabilityOf e : ℝ) ≤ 1 := by exact_mod_cast hre.2
    nlinarith [h1, h2, h3, h4, h5]

/-- Witness for C7 on a concrete verified entity with one observation. -/
theorem qualityMetrics_bounds_witness :
    (exW.observations ≠ [] ∧ exW.accessCount.getD 0 ≤ 100 ∧
      jsOrNat exW.updatedAt 10 ≤ 10) ∧
    (∃ c, (calculateQualityMetrics 10 exW).consistency = some c ∧ 0 ≤ c ∧ c ≤ 1) :=
  ⟨⟨by decide, by decide, by decide⟩,
   (qualityMetrics_bounds 10 exW (by decide) (by decide) (by decide)).2.1⟩

/-! ## C8 — detectPatterns emits per ordered pair -/

theorem patternFor_eq (now : ℕ) (g : KnowledgeGraph) (e1 e2 : Entity) :
    patternFor now g e1 e2
      = if qualB g e1 e2 then some (mkPattern now g e1 e2) else none := by
  rw [patternFor, qualB]
  by_cases h1 : e1.name = e2.name
  · simp [h1]
  · by_cases h2 : 0 < (connRelations g e1 e2).length
    · by_cases h3 : 0 < (sharedObservationsOf e1 e2).length ∨
          0 < (sharedTagsOf e1 e2).length
      · simp [h1, h2, h3]
      · simp only [not_or, Nat.not_lt, Nat.le_zero] at h3
        simp [h1, h2, h3.1, h3.2]
    · simp [h1, h2]

theorem filterMap_patternFor (now : ℕ) (g : KnowledgeGraph) (e1 : Entity) :
    ∀ es : List Entity,
      es.filterMap (patternFor now g e1)
        = (es.filter (fun e2 => qualB g e1 e2)).map (fun e2 => mkPattern now g e1 e2) := by
  intro es
  induction es with
  | nil => rfl
  | cons e2 es ih =>
    rw [List.filterMap_cons, patternFor_eq]
    by_cases h : qualB g e1 e2
    · simp [h, List.filter_cons, ih]
    · simp [h, List.filter_cons, ih]

/-- `detectPatterns` is exactly one `mkPattern` per qualifying ordered pair. -/
theorem detectPatterns_eq (now : ℕ) (g : KnowledgeGraph) :
    detectPatterns now g = (qualifyingPairs g).map (fun q => mkPattern now g q.1 q.2) := by
  rw [detectPatterns, qualifyingPairs]
  have hl : ∀ l : List Entity,
      l.flatMap (fun e1 => g.entities.filterMap (patternFor now g e1))
        = ((l.flatMap (fun e1 => g.entities.map (fun e2 => (e1, e2)))).filter
            (fun q => qualB g q.1 q.2)).map (fun q => mkPattern now g q.1 q.2) := by
    intro l
    induction l with
    | nil => rfl
    | cons e1 l ih =>
      rw [List.flatMap_cons, List.flatMap_cons, List.filter_append, List.map_append, ih,
        filterMap_patternFor, List.filter_map, List.map_map]
      rfl
  exact hl g.entities

/-- Counterexample to C8 as stated: the concrete two-entity graph has a
single unordered qualifying pair, yet `detectPatterns` emits two patterns —
one per ordered pair, not one per unordered pair. -/
theorem detectPatterns_unordered_counterexample :
    exGraphAB.entities.length = 2 ∧ (detectPatterns 7 exGraphAB).length = 2 := by
  constructor
  · decide
  · decide

/-- Claim C8 (amended): `detectPatterns` emits exactly one pattern per
ordered pair of distinct-named entities connected by at least one relation
in either direction and sharing at least one observation or tag; the
pattern carries `frequency = |sharedObservations| + |sharedTags|`,
`confidence = frequency / max(|obs1|, |obs2|)`, the 0.7/0.4 category
thresholds, and `validUntil = now + 30 days`. -/
theorem detectPatterns_ordered_pairs (now : ℕ) (g : KnowledgeGraph) :
    (detectPatterns now g).length = (qualifyingPairs g).length ∧
    (∀ p ∈ detectPatterns now g, ∃ e1 ∈ g.entities, ∃ e2 ∈ g.entities,
      e1.name ≠ e2.name ∧ connRelations g e1 e2 ≠ [] ∧
      (sharedObservationsOf e1 e2 ≠ [] ∨ sharedTagsOf e1 e2 ≠ []) ∧
      p.entities = [e1, e2] ∧
      p.relations = connRelations g e1 e2 ∧
      p.frequency = (sharedObservationsOf e1 e2).length + (sharedTagsOf e1 e2).length ∧
      p.confidence = patternConfidence e1 e2 ∧
      p.category = (if (patternConfidence e1 e2).gtB 0.7 then "strong"
                    else if (patternConfidence e1 e2).gtB 0.4 then "moderate" else "weak") ∧
      p.validUntil = some (now + THIRTY_DAYS_MS)) := by
  constructor
  · rw [detectPatterns_eq, List.length_map]
  · intro p hp
    rw [detectPatterns_eq] at hp
    rcases List.mem_map.mp hp with ⟨⟨e1, e2⟩, hq, rfl⟩
    have hmem := List.mem_filter.mp hq
    have hpair : e1 ∈ g.entities ∧ e2 ∈ g.entities := by
      rcases List.mem_flatMap.mp hmem.1 with ⟨a, ha, hin⟩
      rcases List.mem_map.mp hin with ⟨b, hb, heq⟩
      cases heq
      exact ⟨ha, hb⟩
    have hqb := hmem.2
    simp only [qualB, Bool.and_eq_true, Bool.or_eq_true, decide_eq_true_eq,
      Bool.not_eq_true', beq_eq_false_iff_ne] at hqb
    obtain ⟨⟨hne, hconn⟩, hshared⟩ := hqb
    refine ⟨e1, hpair.1, e2, hpair.2, hne, ?_, ?_, rfl, rfl, rfl, rfl, rfl, rfl⟩
    · intro hnil
      rw [hnil] at hconn
      simp at hconn
    · rcases hshared with h | h
      · refine Or.inl (fun hnil => ?_)
        rw [hnil] at h
        simp at h
      · refine Or.inr (fun hnil => ?_)
        rw [hnil] at h
        simp at h

/-- Witness for C8: the pattern emitted for the concrete ordered pair
`(A, B)` satisfies the per-pair field description. -/
theorem detectPatterns_ordered_pairs_witness :
    ∃ e1 ∈ exGraphAB.entities, ∃ e2 ∈ exGraphAB.entities,
      e1.name ≠ e2.name ∧ connRelations exGraphAB e1 e2 ≠ [] ∧
      (sharedObservationsOf e1 e2 ≠ [] ∨ sharedTagsOf e1 e2 ≠ []) ∧
      (mkPattern 7 exGraphAB exA exB).entities = [e1, e2] ∧
      (mkPattern 7 exGraphAB exA exB).relations = connRelations exGraphAB e1 e2 ∧
      (mkPattern 7 exGraphAB exA exB).frequency
        = (sharedObservationsOf e1 e2).length + (sharedTagsOf e1 e2).length ∧
      (mkPattern 7 exGraphAB exA exB).confidence = patternConfidence e1 e2 ∧
      (mkPattern 7 exGraphAB exA exB).category
        = (if (patternConfidence e1 e2).gtB 0.7 then "strong"
           else if (patternConfidence e1 e2).gtB 0.4 then "moderate" else "weak") ∧
      (mkPattern 7 exGraphAB exA exB).validUntil = some (7 + THIRTY_DAYS_MS) :=
  (detectPatterns_ordered_pairs 7 exGraphAB).2 (mkPattern 7 exGraphAB exA exB)
    (by exact List.mem_cons_self _ _)

/-! ## C9 — access-metadata side effects of the read paths -/

/-- Counterexample to C9 as stated: the `open_nodes` handler performs no
access-metadata update and no save — on a cache-hit store the named
entity's `accessCount` stays 5 (the claim demands 6) and the store is
untouched. -/
theorem open_nodes_no_bump_counterexample :
    ((storeOpenNodes 100 ["A"] c9Store).1.1.map Entity.accessCount) = [some 5] ∧
    (storeOpenNodes 100 ["A"] c9Store).2 = c9Store := by
  constructor
  · decide
  · decide

/-- Claim C9 (amended): `searchNodes` applies the access-metadata update
(`lastAccessed := now`, `accessCount + 1`, `updatedAt := now`) to exactly
the matched entities, leaves every other field and every unmatched entity
unchanged, and persists the updated full graph; `openNodes` applies no
update and persists nothing — the store is exactly as the load left it. -/
theorem searchNodes_bumps_openNodes_does_not (now : ℕ) (q : String)
    (names : List String) (s : Store) (g : KnowledgeGraph) :
    ((searchNodes now q g).2.relations = g.relations) ∧
    ((searchNodes now q g).2.contexts = g.contexts) ∧
    ((searchNodes now q g).2.patterns = g.patterns) ∧
    ((searchNodes now q g).2.entities.length = g.entities.length) ∧
    (∀ i (h1 : i < g.entities.length) (h2 : i < (searchNodes now q g).2.entities.length),
      (matchesQuery q (g.entities.get ⟨i, h1⟩) = true →
        (searchNodes now q g).2.entities.get ⟨i, h2⟩
          = { g.entities.get ⟨i, h1⟩ with
              lastAccessed := some now,
              accessCount := some ((g.entities.get ⟨i, h1⟩).accessCount.getD 0 + 1),
              updatedAt := some now }) ∧
      (matchesQuery q (g.entities.get ⟨i, h1⟩) = false →
        (searchNodes now q g).2.entities.get ⟨i, h2⟩ = g.entities.get ⟨i, h1⟩)) ∧
    ((storeSearchNodes now q s).2.file
      = some (saveLines now (searchNodes now q (loadGraphOp now s).1).2)) ∧
    ((storeOpenNodes now names s).2 = (loadGraphOp now s).2.1) ∧
    ((storeOpenNodes now names s).2.file = s.file) ∧
    (∀ e ∈ (storeOpenNodes now names s).1.1, e ∈ (loadGraphOp now s).1.entities) := by
  refine ⟨rfl, rfl, rfl, ?_, ?_, ?_, ?_, ?_, ?_⟩
  · rw [show (searchNodes now q g).2.entities
        = g.entities.map (fun e => if matchesQuery q e then updateEntityMetadata now e else e)
      from rfl]
    exact List.length_map _ _
  · intro i h1 h2
    have hget : (searchNodes now q g).2.entities.get ⟨i, h2⟩
        = (fun e => if matchesQuery q e then updateEntityMetadata now e else e)
            (g.entities.get ⟨i, h1⟩) := List.get_map _
    constructor
    · intro hm
      rw [hget]
      dsimp only
      rw [if_pos hm]
      rfl
    · intro hm
      rw [hget]
      dsimp only
      rw [if_neg (by simp only [Bool.not_eq_true]; exact hm)]
  · rcases hL : loadGraphOp now s with ⟨g0, s1, ts⟩
    rcases hS : searchNodes now q g0 with ⟨result, updatedFull⟩
    rw [storeSearchNodes, hL]
    simp only [hS, saveGraphOp]
  · rcases hL : loadGraphOp now s with ⟨g0, s1, ts⟩
    rw [storeOpenNodes, hL]
  · have h := loadGraphOp_file now s
    rcases hL : loadGraphOp now s with ⟨g0, s1, ts⟩
    rw [storeOpenNodes, hL]
    rw [hL] at h
    exact h
  · intro e he
    rcases hL : loadGraphOp now s with ⟨g0, s1, ts⟩
    rw [storeOpenNodes, hL] at he
    have he2 : e ∈ g0.entities.filter (fun e => names.contains e.name) := he
    exact (List.mem_filter.mp he2).1

/-- Witness for C9: searching `"x"` on the concrete one-entity graph bumps
the matched entity's metadata. -/
theorem searchNodes_bumps_witness :
    (searchNodes 100 "x" c9Graph).2.entities.get ⟨0, by decide⟩
      = { c9Graph.entities.get ⟨0, by decide⟩ with
          lastAccessed := some 100,
          accessCount := some ((c9Graph.entities.get ⟨0, by decide⟩).accessCount.getD 0 + 1),
          updatedAt := some 100 } :=
  ((searchNodes_bumps_openNodes_does_not 100 "x" [] exStore c9Graph).2.2.2.2.1
    0 (by decide) (by decide)).1 (by decide)

end KG
